import Mathlib

/-!
Verification of the Stock-Exchange gateway core: a shallow embedding of the
shared-memory SPSC ring buffer (`SharedMemory_Producer.cpp`,
`SharedMemory_Consumer.cpp`), the IPC message envelope (`messaging.h`), the
bounded blocking queue (`MutexBlockingQueue.h`), the worker run loop
(`Worker.cpp`) and the FIX parser/dispatcher (`FIX.h`,
`FixMessageDispatcher.h`), together with theorems settling the stated
properties of these components.

Machine integers are modelled as `Nat` with explicit reduction modulo
`2^width` at the points where the C++ code stores into a fixed-width field.
Byte buffers are `List Nat` (each element a byte value), laid out in the
host's little-endian order, matching the single-machine native-endian
deployment the code assumes.
-/

namespace StockExchange

/-- Modulus of a 32-bit unsigned value (`uint32_t` arithmetic is mod `U32`). -/
def U32 : Nat := 4294967296

/-- Modulus of a 16-bit unsigned value. -/
def U16 : Nat := 65536

/-- Modulus of a 64-bit unsigned value. -/
def U64 : Nat := 18446744073709551616

/-- Little-endian byte serialization of `v` into exactly `w` bytes
(the bytes `memcpy` produces for a `w`-byte unsigned integer holding
`v mod 2^(8*w)` on a little-endian host). -/
def leBytes : Nat → Nat → List Nat
  | 0, _ => []
  | w + 1, v => v % 256 :: leBytes w (v / 256)

/-- Little-endian read of a byte list as an unsigned integer. -/
def readLE (bs : List Nat) : Nat :=
  bs.foldr (fun b acc => b + 256 * acc) 0

theorem length_leBytes (w v : Nat) : (leBytes w v).length = w := by
  induction w generalizing v with
  | zero => rfl
  | succ w ih => simp [leBytes, ih]

theorem readLE_leBytes (w v : Nat) : readLE (leBytes w v) = v % 256 ^ w := by
  induction w generalizing v with
  | zero => simp [leBytes, readLE, Nat.mod_one]
  | succ w ih =>
      have h : readLE (leBytes (w + 1) v) = v % 256 + 256 * readLE (leBytes w (v / 256)) := by
        simp [leBytes, readLE]
      rw [h, ih]
      rw [pow_succ, mul_comm (256 ^ w) 256, Nat.mod_mul]

/-! ## Ring segment state (`SharedMemory.h`)

`Slot` and `SharedHeader` mirror the structs of `SharedMemory.h`.  The
`data` field of a slot models the `uint8_t data[MAX_MSG_SIZE]` array as the
list of its byte values; `memcpy(slot.data, src, size)` overwrites the first
`size` bytes and leaves the rest. -/

/-- Compile-time slot count default, from `const.h`. -/
def BUFFER_CAPACITY : Nat := 1024

/-- Compile-time maximum message size, from `const.h`. -/
def MAX_MSG_SIZE : Nat := 4096

/-- One fixed-size ring cell (`struct Slot`). -/
structure Slot where
  len : Nat
  data : List Nat

/-- The shared control header (`struct SharedHeader`).  `signature` and
`uuid` are carried as abstract byte lists; `writeIdx`, `readIdx`,
`capacity`, `maxMsgSize` are `uint32_t` values. -/
structure SharedHeader where
  signature : List Nat
  uuid : List Nat
  writeIdx : Nat
  readIdx : Nat
  capacity : Nat
  maxMsgSize : Nat

/-- The mapped segment: header plus the slot array (indexed by slot number;
the code only ever accesses indices `< capacity`). -/
structure RingState where
  header : SharedHeader
  slots : Nat → Slot

/-- State built by the `Producer` constructor (`SharedMemory_Producer.cpp`
lines 6-24): header zeroed then signature/uuid stamped, `capacity` from the
argument, `maxMsgSize = MAX_MSG_SIZE`, both indices zero; the freshly
`ftruncate`d segment is zero-filled, so every slot starts zeroed. -/
def Producer.initState (capacity : Nat) (sig uuid : List Nat) : RingState :=
  { header :=
      { signature := sig, uuid := uuid, writeIdx := 0, readIdx := 0,
        capacity := capacity, maxMsgSize := MAX_MSG_SIZE },
    slots := fun _ => { len := 0, data := List.replicate MAX_MSG_SIZE 0 } }

/-- Embedding of `Producer::write` (`SharedMemory_Producer.cpp` lines 27-62).
Returns the `bool` result and the post-call segment state.  The fullness
test `currentWrite - currentRead >= capacity` is `uint32_t` subtraction,
i.e. `(currentWrite + U32 - currentRead) % U32` for in-range operands. -/
def Producer.write (st : RingState) (data : List Nat) : Bool × RingState :=
  if data.length > st.header.maxMsgSize then
    (false, st)
  else
    let currentWrite := st.header.writeIdx
    let currentRead := st.header.readIdx
    if st.header.capacity ≤ (currentWrite + U32 - currentRead) % U32 then
      (false, st)
    else
      let slotIdx := currentWrite % st.header.capacity
      let oldSlot := st.slots slotIdx
      let newSlot : Slot :=
        { len := data.length, data := data ++ oldSlot.data.drop data.length }
      (true,
        { header := { st.header with writeIdx := (currentWrite + 1) % U32 },
          slots := Function.update st.slots slotIdx newSlot })

/-- Embedding of `Consumer::read` (`SharedMemory_Consumer.cpp` lines 30-52).
Returns the `uint32_t` result, the bytes copied into the caller's buffer,
and the post-call segment state. -/
def Consumer.read (st : RingState) (bufferSize : Nat) : Nat × List Nat × RingState :=
  let currentRead := st.header.readIdx
  let currentWrite := st.header.writeIdx
  if currentWrite ≤ currentRead then
    (0, [], st)
  else
    let slotIdx := currentRead % st.header.capacity
    let slot := st.slots slotIdx
    let msgLen := if bufferSize < slot.len then bufferSize else slot.len
    (msgLen, slot.data.take msgLen,
      { st with header := { st.header with readIdx := (currentRead + 1) % U32 } })

/-! ## SPSC execution traces

An interleaving of `Producer::write` and `Consumer::read` calls on one
segment is a list of operations run in sequence (the SPSC contract makes
each call atomic with respect to the other side thanks to the
release/acquire pairing on the indices, so any concurrent execution is
equivalent to some interleaving at call granularity). -/

/-- One call of the interleaving. -/
inductive RingOp where
  | write (data : List Nat)
  | read (bufferSize : Nat)

/-- Accumulated result of running an interleaving: the final segment state,
the payloads of the writes that returned `true`, and the outputs of the
reads that returned a non-zero length. -/
structure SpscRun where
  st : RingState
  writesOk : List (List Nat)
  readsOk : List (List Nat)

/-- Run one operation of the interleaving. -/
def spscStep (r : SpscRun) (op : RingOp) : SpscRun :=
  match op with
  | .write data =>
      let res := Producer.write r.st data
      { st := res.2,
        writesOk := if res.1 then r.writesOk ++ [data] else r.writesOk,
        readsOk := r.readsOk }
  | .read bufferSize =>
      let res := Consumer.read r.st bufferSize
      { st := res.2.2,
        writesOk := r.writesOk,
        readsOk := if res.1 ≠ 0 then r.readsOk ++ [res.2.1] else r.readsOk }

/-- Run a whole interleaving from an initial segment state. -/
def spscRun (init : RingState) (ops : List RingOp) : SpscRun :=
  ops.foldl spscStep { st := init, writesOk := [], readsOk := [] }

/-- Side conditions of the ring-buffer correctness claim on each call:
writes carry at most `MAX_MSG_SIZE` bytes (and at least one — a zero-size
write succeeds but its matching read returns length 0), reads supply a
buffer of at least `MAX_MSG_SIZE` bytes. -/
def RingOpOk : RingOp → Prop
  | .write data => 0 < data.length ∧ data.length ≤ MAX_MSG_SIZE
  | .read bufferSize => MAX_MSG_SIZE ≤ bufferSize

instance : DecidablePred RingOpOk := by
  intro op
  cases op <;> simp [RingOpOk] <;> infer_instance

/-! ### List helper lemmas -/

theorem take_append_left {α : Type} (n : Nat) (xs ys : List α) (h : n ≤ xs.length) :
    (xs ++ ys).take n = xs.take n := by
  induction xs generalizing n with
  | nil =>
      simp only [List.length_nil, Nat.le_zero] at h
      simp [h]
  | cons x xs ih =>
      cases n with
      | zero => simp
      | succ n => simp only [List.cons_append, List.take_succ_cons, List.length_cons] at *
                  rw [ih n (by omega)]

theorem getD_append_left {α : Type} (n : Nat) (xs ys : List α) (d : α) (h : n < xs.length) :
    (xs ++ ys).getD n d = xs.getD n d := by
  induction xs generalizing n with
  | nil => simp at h
  | cons x xs ih =>
      cases n with
      | zero => simp
      | succ n => simp only [List.cons_append, List.getD_cons_succ, List.length_cons] at *
                  exact ih n (by omega)

theorem getD_concat_length {α : Type} (xs : List α) (a d : α) :
    (xs ++ [a]).getD xs.length d = a := by
  induction xs with
  | nil => simp
  | cons x xs ih => simp [ih]

theorem take_succ_getD {α : Type} (n : Nat) (l : List α) (d : α) (h : n < l.length) :
    l.take (n + 1) = l.take n ++ [l.getD n d] := by
  induction l generalizing n with
  | nil => simp at h
  | cons x xs ih =>
      cases n with
      | zero => simp
      | succ n =>
          simp only [List.take_succ_cons, List.getD_cons_succ, List.length_cons] at *
          rw [ih n (by omega)]
          simp

theorem getD_mem {α : Type} (n : Nat) (l : List α) (d : α) (h : n < l.length) :
    l.getD n d ∈ l := by
  induction l generalizing n with
  | nil => simp at h
  | cons x xs ih =>
      cases n with
      | zero => simp
      | succ n =>
          simp only [List.getD_cons_succ, List.length_cons] at *
          exact List.mem_cons_of_mem x (ih n (by omega))

theorem take_whole_append {α : Type} (xs ys : List α) :
    (xs ++ ys).take xs.length = xs := by
  rw [take_append_left xs.length xs ys (le_refl _), List.take_length]

/-! ### Modular-arithmetic facts for the 32-bit counters -/

theorem u32sub_exact (wc rc : Nat) (h1 : rc ≤ wc) (h2 : wc - rc < U32) :
    (wc % U32 + U32 - rc % U32) % U32 = wc - rc := by
  unfold U32 at *
  omega

/-- When the consumer's emptiness test passes (`read_idx < write_idx` as raw
32-bit values) and at most `capacity < 2^31` messages are outstanding, the
unread region does not cross a `2^32` counter wrap. -/
theorem read_no_wrap (wc rc cap : Nat) (h1 : rc ≤ wc) (h2 : wc - rc ≤ cap)
    (h3 : cap < 2147483648) (h4 : rc % U32 < wc % U32) :
    rc % U32 + (wc - rc) ≤ U32 := by
  unfold U32 at *
  omega

/-- Under the conditions of `read_no_wrap`, no unread counter value `j`
strictly between `rc` and `wc` lands on the same slot as `rc`, so the slot
the consumer is about to read has not been overwritten. -/
theorem no_collision (wc rc cap j : Nat) (hcap : 0 < cap) (hcap31 : cap < 2147483648)
    (h1 : rc ≤ wc) (h2 : wc - rc ≤ cap) (h4 : rc % U32 < wc % U32)
    (hj1 : rc < j) (hj2 : j < wc) :
    (j % U32) % cap ≠ (rc % U32) % cap := by
  intro heq
  have hnw := read_no_wrap wc rc cap h1 h2 hcap31 h4
  have hd : j % U32 = rc % U32 + (j - rc) := by
    unfold U32 at *
    omega
  have hmodeq : rc % U32 ≡ rc % U32 + (j - rc) [MOD cap] := by
    unfold Nat.ModEq
    rw [← hd, heq]
  have hdvd : cap ∣ (rc % U32 + (j - rc)) - rc % U32 :=
    (Nat.modEq_iff_dvd' (Nat.le_add_right _ _)).mp hmodeq
  rw [Nat.add_sub_cancel_left] at hdvd
  have hlt : j - rc < cap := by omega
  have := Nat.le_of_dvd (by omega) hdvd
  omega

/-! ### The ring-buffer invariant -/

/-- Invariant relating the segment state to the ghost history: `W` is the
list of payloads of successful writes, `rc` the number of reads that
advanced `read_idx`.  Every unread message whose slot has not been
reclaimed by a later (wrap-colliding) write is still intact in its slot. -/
def RingInv (cap : Nat) (st : RingState) (W : List (List Nat)) (rc : Nat) : Prop :=
  st.header.capacity = cap ∧
  st.header.maxMsgSize = MAX_MSG_SIZE ∧
  st.header.writeIdx = W.length % U32 ∧
  st.header.readIdx = rc % U32 ∧
  rc ≤ W.length ∧
  W.length - rc ≤ cap ∧
  (∀ w ∈ W, 0 < w.length ∧ w.length ≤ MAX_MSG_SIZE) ∧
  (∀ i, rc ≤ i → i < W.length →
    (∀ j, i < j → j < W.length → (j % U32) % cap ≠ (i % U32) % cap) →
    (st.slots ((i % U32) % cap)).len = (W.getD i []).length ∧
    ∃ rest, (st.slots ((i % U32) % cap)).data = W.getD i [] ++ rest)

/-- Invariant on a running interleaving: the successful reads so far are
exactly the first `rc` successful writes. -/
def RunInv (cap : Nat) (r : SpscRun) : Prop :=
  ∃ rc, RingInv cap r.st r.writesOk rc ∧ r.readsOk = r.writesOk.take rc

theorem write_over_eval (st : RingState) (data : List Nat)
    (h1 : st.header.maxMsgSize < data.length) :
    Producer.write st data = (false, st) := by
  simp only [Producer.write]
  rw [if_pos h1]

theorem write_full_eval (st : RingState) (data : List Nat)
    (h1 : data.length ≤ st.header.maxMsgSize)
    (h2 : st.header.capacity ≤ (st.header.writeIdx + U32 - st.header.readIdx) % U32) :
    Producer.write st data = (false, st) := by
  simp only [Producer.write]
  rw [if_neg (by omega), if_pos h2]

theorem write_ok_eval (st : RingState) (data : List Nat)
    (h1 : data.length ≤ st.header.maxMsgSize)
    (h2 : (st.header.writeIdx + U32 - st.header.readIdx) % U32 < st.header.capacity) :
    Producer.write st data =
      (true,
        { header := { st.header with writeIdx := (st.header.writeIdx + 1) % U32 },
          slots := Function.update st.slots (st.header.writeIdx % st.header.capacity)
            { len := data.length,
              data := data ++
                (st.slots (st.header.writeIdx % st.header.capacity)).data.drop data.length } }) := by
  simp only [Producer.write]
  rw [if_neg (by omega), if_neg (by omega)]

theorem read_empty_eval (st : RingState) (bufferSize : Nat)
    (h : st.header.writeIdx ≤ st.header.readIdx) :
    Consumer.read st bufferSize = (0, [], st) := by
  simp only [Consumer.read]
  rw [if_pos h]

theorem read_ok_eval (st : RingState) (bufferSize : Nat)
    (h : st.header.readIdx < st.header.writeIdx) :
    Consumer.read st bufferSize =
      (if bufferSize < (st.slots (st.header.readIdx % st.header.capacity)).len then bufferSize
         else (st.slots (st.header.readIdx % st.header.capacity)).len,
       (st.slots (st.header.readIdx % st.header.capacity)).data.take
         (if bufferSize < (st.slots (st.header.readIdx % st.header.capacity)).len then bufferSize
            else (st.slots (st.header.readIdx % st.header.capacity)).len),
       { st with header := { st.header with readIdx := (st.header.readIdx + 1) % U32 } }) := by
  simp only [Consumer.read]
  rw [if_neg (by omega)]

/-- One step of any interleaving satisfying the per-call side conditions
preserves the run invariant. -/
theorem spscStep_inv (cap : Nat) (hcap : 0 < cap) (hcap31 : cap < 2147483648)
    (r : SpscRun) (op : RingOp) (hop : RingOpOk op) (hinv : RunInv cap r) :
    RunInv cap (spscStep r op) := by
  obtain ⟨rc, ⟨hc, hm, hw, hr, hrw, hocc, hmem, hslots⟩, hreads⟩ := hinv
  cases op with
  | write data =>
      obtain ⟨hpos, hsize⟩ := hop
      have h1 : data.length ≤ r.st.header.maxMsgSize := by rw [hm]; exact hsize
      have hexp : (r.st.header.writeIdx + U32 - r.st.header.readIdx) % U32 =
          r.writesOk.length - rc := by
        rw [hw, hr]
        exact u32sub_exact _ _ hrw (by unfold U32; omega)
      by_cases hfull : cap ≤ r.writesOk.length - rc
      · have heval : Producer.write r.st data = (false, r.st) :=
          write_full_eval r.st data h1 (by rw [hexp, hc]; exact hfull)
        simp only [spscStep, heval]
        exact ⟨rc, ⟨hc, hm, hw, hr, hrw, hocc, hmem, hslots⟩, by simpa using hreads⟩
      · have heval := write_ok_eval r.st data h1 (by rw [hexp, hc]; omega)
        have hA : RingInv cap (Producer.write r.st data).2 (r.writesOk ++ [data]) rc := by
          rw [heval]
          dsimp only
          refine ⟨hc, hm, ?_, hr, ?_, ?_, ?_, ?_⟩
          · show (r.st.header.writeIdx + 1) % U32 = (r.writesOk ++ [data]).length % U32
            rw [hw, Nat.mod_add_mod, List.length_append, List.length_singleton]
          · rw [List.length_append, List.length_singleton]
            omega
          · rw [List.length_append, List.length_singleton]
            omega
          · intro w hwmem
            rcases List.mem_append.mp hwmem with h | h
            · exact hmem w h
            · rcases List.mem_singleton.mp h with rfl
              exact ⟨hpos, hsize⟩
          · intro i hi1 hi2 hnc
            rw [List.length_append, List.length_singleton] at hi2
            dsimp only
            rcases Nat.lt_or_ge i r.writesOk.length with hilt | hige
            · have hne : (i % U32) % cap ≠
                  r.st.header.writeIdx % r.st.header.capacity := by
                rw [hw, hc]
                exact fun hcontra => hnc r.writesOk.length hilt
                  (by rw [List.length_append, List.length_singleton]; omega) hcontra.symm
              rw [Function.update_noteq hne]
              have hold := hslots i hi1 hilt (fun j hj1 hj2 => hnc j hj1
                (by rw [List.length_append, List.length_singleton]; omega))
              rw [getD_append_left i r.writesOk [data] [] hilt]
              exact hold
            · have hieq : i = r.writesOk.length := by omega
              have hkey : (i % U32) % cap =
                  r.st.header.writeIdx % r.st.header.capacity := by
                rw [hieq, hw, hc]
              rw [hkey, Function.update_same, hieq, getD_concat_length]
              exact ⟨rfl, _, rfl⟩
        have hB : r.readsOk = (r.writesOk ++ [data]).take rc := by
          rw [take_append_left rc r.writesOk [data] hrw]
          exact hreads
        rw [heval] at hA
        simp only [spscStep, heval, if_true]
        exact ⟨rc, hA, hB⟩
  | read bufferSize =>
      have hbuf : MAX_MSG_SIZE ≤ bufferSize := hop
      by_cases hempty : r.st.header.writeIdx ≤ r.st.header.readIdx
      · have heval := read_empty_eval r.st bufferSize hempty
        simp only [spscStep, heval]
        exact ⟨rc, ⟨hc, hm, hw, hr, hrw, hocc, hmem, hslots⟩, by simpa using hreads⟩
      · push_neg at hempty
        have hlt : rc % U32 < r.writesOk.length % U32 := by
          rw [← hw, ← hr]
          exact hempty
        have hrclt : rc < r.writesOk.length := by
          rcases Nat.lt_or_ge rc r.writesOk.length with h | h
          · exact h
          · have heq : rc = r.writesOk.length := le_antisymm hrw h
            rw [heq] at hlt
            omega
        have hnocol : ∀ j, rc < j → j < r.writesOk.length →
            (j % U32) % cap ≠ (rc % U32) % cap :=
          fun j hj1 hj2 => no_collision _ _ _ _ hcap hcap31 hrw hocc hlt hj1 hj2
        obtain ⟨hlen, rest, hdata⟩ := hslots rc (le_refl rc) hrclt hnocol
        obtain ⟨hpos', hsize'⟩ := hmem _ (getD_mem rc r.writesOk [] hrclt)
        have heval := read_ok_eval r.st bufferSize hempty
        have hidx : r.st.header.readIdx % r.st.header.capacity = (rc % U32) % cap := by
          rw [hr, hc]
        rw [hidx] at heval
        have hmlen : ¬ (bufferSize < (r.st.slots ((rc % U32) % cap)).len) := by
          rw [hlen]
          omega
        rw [if_neg hmlen] at heval
        rw [hlen, hdata, take_whole_append] at heval
        have hA : RingInv cap (Consumer.read r.st bufferSize).2.2 r.writesOk (rc + 1) := by
          rw [heval]
          dsimp only
          refine ⟨hc, hm, hw, ?_, ?_, ?_, hmem, ?_⟩
          · show (r.st.header.readIdx + 1) % U32 = (rc + 1) % U32
            rw [hr, Nat.mod_add_mod]
          · omega
          · omega
          · intro i hi1 hi2 hnc
            exact hslots i (by omega) hi2 hnc
        have hB : r.readsOk ++ [r.writesOk.getD rc []] = r.writesOk.take (rc + 1) := by
          rw [take_succ_getD rc r.writesOk [] hrclt, hreads]
        have hne0 : (r.writesOk.getD rc []).length ≠ 0 := by omega
        rw [heval] at hA
        simp only [spscStep, heval, ne_eq, hne0, not_false_eq_true, if_true]
        exact ⟨rc + 1, hA, hB⟩

theorem spsc_foldl_inv (cap : Nat) (hcap : 0 < cap) (hcap31 : cap < 2147483648) :
    ∀ (ops : List RingOp) (r : SpscRun), (∀ op ∈ ops, RingOpOk op) → RunInv cap r →
      RunInv cap (ops.foldl spscStep r) := by
  intro ops
  induction ops with
  | nil => intro r _ h; exact h
  | cons op ops ih =>
      intro r hops hr
      exact ih (spscStep r op) (fun o ho => hops o (List.mem_cons_of_mem op ho))
        (spscStep_inv cap hcap hcap31 r op (hops op (List.mem_cons_self op ops)) hr)

theorem spsc_init_inv (cap : Nat) (sig uuid : List Nat) :
    RunInv cap { st := Producer.initState cap sig uuid, writesOk := [], readsOk := [] } := by
  refine ⟨0, ⟨rfl, rfl, rfl, rfl, le_refl 0, by simp, ?_, ?_⟩, rfl⟩
  · intro w hw
    simp at hw
  · intro i _ hi2
    simp at hi2

/-- C1 (amended): in any interleaving of `Producer::write` calls of sizes in
`[1, max_msg_size]` with `Consumer::read` calls whose buffers hold at least
`max_msg_size` bytes, run against a freshly constructed segment of capacity
`0 < capacity < 2^31`, the sequence of byte strings returned by the reads
that return a non-zero length is a prefix — in order and in length — of the
sequence of byte strings passed to the writes that return `true`: no bytes
are fabricated, dropped, or reordered. -/
theorem spsc_successful_reads_match_writes (cap : Nat) (sig uuid : List Nat)
    (ops : List RingOp) (hcap : 0 < cap) (hcap31 : cap < 2147483648)
    (hops : ∀ op ∈ ops, RingOpOk op) :
    List.IsPrefix (spscRun (Producer.initState cap sig uuid) ops).readsOk
      (spscRun (Producer.initState cap sig uuid) ops).writesOk := by
  obtain ⟨rc, _, hreads⟩ :=
    spsc_foldl_inv cap hcap hcap31 ops
      { st := Producer.initState cap sig uuid, writesOk := [], readsOk := [] }
      hops (spsc_init_inv cap sig uuid)
  rw [spscRun, hreads]
  exact ⟨_, List.take_append_drop rc _⟩

/-- Witness: the amended C1 theorem applied to a concrete two-call
interleaving on a capacity-4 segment. -/
theorem spsc_successful_reads_match_writes_witness :
    List.IsPrefix
      (spscRun (Producer.initState 4 [] []) [RingOp.write [7], RingOp.read 4096]).readsOk
      (spscRun (Producer.initState 4 [] []) [RingOp.write [7], RingOp.read 4096]).writesOk :=
  spsc_successful_reads_match_writes 4 [] [] [RingOp.write [7], RingOp.read 4096]
    (by decide) (by decide) (by decide)

/-- C1 as frozen is refuted by a zero-size write: in the interleaving
`write [] ; write [7] ; read ; read` on a fresh capacity-4 segment (all
write sizes are at most `max_msg_size` and both read buffers hold
`max_msg_size` bytes), both writes return `true` but the zero-size
message is consumed by a read returning length 0, so the sequence of
successful (non-zero-length) reads `[[7]]` never equals the sequence of
successful writes `[[], [7]]`. -/
theorem spsc_claimed_equality_fails :
    (spscRun (Producer.initState 4 [] [])
        [RingOp.write [], RingOp.write [7], RingOp.read 4096, RingOp.read 4096]).writesOk =
      [[], [7]] ∧
    (spscRun (Producer.initState 4 [] [])
        [RingOp.write [], RingOp.write [7], RingOp.read 4096, RingOp.read 4096]).readsOk =
      [[7]] ∧
    ¬ ((spscRun (Producer.initState 4 [] [])
        [RingOp.write [], RingOp.write [7], RingOp.read 4096, RingOp.read 4096]).readsOk =
      (spscRun (Producer.initState 4 [] [])
        [RingOp.write [], RingOp.write [7], RingOp.read 4096, RingOp.read 4096]).writesOk) := by
  refine ⟨?_, ?_, ?_⟩ <;> decide

/-- C2: `Producer::write` returns `false` exactly when the message size
exceeds the header's `max_msg_size` or when the 32-bit difference
`write_idx - read_idx` is at least `capacity` at the time of the call; and
every failing call returns the shared state — header (both indices,
capacity, max size, signature, uuid) and every slot — unchanged. -/
theorem producer_write_fails_iff_oversize_or_full (st : RingState) (data : List Nat) :
    ((Producer.write st data).1 = false ↔
      st.header.maxMsgSize < data.length ∨
        st.header.capacity ≤ (st.header.writeIdx + U32 - st.header.readIdx) % U32) ∧
    ((Producer.write st data).1 = false → (Producer.write st data).2 = st) := by
  by_cases h1 : st.header.maxMsgSize < data.length
  · rw [write_over_eval st data h1]
    simp [h1]
  · by_cases h2 : st.header.capacity ≤ (st.header.writeIdx + U32 - st.header.readIdx) % U32
    · rw [write_full_eval st data (by omega) h2]
      simp [h2]
    · rw [write_ok_eval st data (by omega) (by omega)]
      simp [h1, h2]

/-- Witness: C2 applied to a fresh capacity-4 segment and an oversize
(4097-byte) message — the write fails and the state is returned intact. -/
theorem producer_write_fails_witness :
    (Producer.write (Producer.initState 4 [] []) (List.replicate 4097 0)).2 =
      Producer.initState 4 [] [] :=
  (producer_write_fails_iff_oversize_or_full (Producer.initState 4 [] [])
      (List.replicate 4097 0)).2
    ((producer_write_fails_iff_oversize_or_full (Producer.initState 4 [] [])
        (List.replicate 4097 0)).1.mpr
      (Or.inl (by rw [List.length_replicate]; decide)))

/-! ## IPC message envelope (`messaging.h`)

Layout note.  The source opens `#pragma pack(push, 1)` and immediately
closes it with `#pragma pack(pop)` (messaging.h lines 16-17) BEFORE the
struct declarations, so `MsgHeader` and `FieldHeader` are laid out with the
compiler's default alignment, contrary to the adjacent comment "Do not
insert padding bytes between fields".  `MsgHeader` `{u16, u16, u32, u64}`
happens to need no padding and occupies 16 bytes, but `FieldHeader`
`{int16_t fieldId; uint8_t fieldType; uint32_t valueLen}` receives one
padding byte before `valueLen` (which must be 4-aligned) and occupies
8 bytes, not 7.  The embedding below reproduces this 8-byte on-wire record
header; the padding byte's content is indeterminate in the source (the
local `FieldHeader fh;` is never fully initialized before `memcpy`) and is
fixed to 0 here — no code path ever reads it.

Multi-byte values are serialized in the host's (little-endian) byte order,
as the `memcpy`-based source does on the single-machine deployment. -/

/-- Message header (`struct MsgHeader`): `{MsgType : u16, fieldCount : u16,
length : u32, seqNo : u64}`, 16 bytes on the wire. -/
structure MsgHeader where
  MsgType : Nat
  fieldCount : Nat
  length : Nat
  seqNo : Nat
deriving DecidableEq

/-- The in-memory message builder (`class IpcMessage`): a header plus the
append-only encoded field byte vector. -/
structure IpcMessage where
  header : MsgHeader
  fields : List Nat
deriving DecidableEq

/-- State after the default constructor, which calls `clear()`: header
zeroed, `MsgType = MsgType::NONE` (numeric value 0), empty field vector. -/
def IpcMessage.empty : IpcMessage :=
  { header := { MsgType := 0, fieldCount := 0, length := 0, seqNo := 0 }, fields := [] }

/-- Embedding of `IpcMessage::setMsgType` (the enum value is stored into
the `uint16_t` field). -/
def IpcMessage.setMsgType (m : IpcMessage) (t : Nat) : IpcMessage :=
  { m with header := { m.header with MsgType := t % U16 } }

/-- Embedding of `IpcMessage::appendBytes`. -/
def IpcMessage.appendBytes (m : IpcMessage) (src : List Nat) : IpcMessage :=
  { m with fields := m.fields ++ src }

/-- The 8 bytes `memcpy` copies for a `FieldHeader` value: `fieldId` at
offsets 0-1, `fieldType` at offset 2, one padding byte at offset 3 (see the
layout note), `valueLen` at offsets 4-7. -/
def fieldHeaderBytes (fieldId fieldType valueLen : Nat) : List Nat :=
  leBytes 2 fieldId ++ [fieldType % 256] ++ [0] ++ leBytes 4 valueLen

/-- Embedding of `IpcMessage::addFieldHeader`. -/
def IpcMessage.addFieldHeader (m : IpcMessage) (fieldId typ valueLen : Nat) : IpcMessage :=
  m.appendBytes (fieldHeaderBytes fieldId typ valueLen)

/-- Embedding of `IpcMessage::addInt64`; the `int64_t` value contributes
its two's-complement byte image. -/
def IpcMessage.addInt64 (m : IpcMessage) (fieldId : Nat) (value : Int) : IpcMessage :=
  (m.addFieldHeader fieldId 1 8).appendBytes (leBytes 8 (value % (18446744073709551616 : Int)).toNat)

/-- Embedding of `IpcMessage::addUint64`. -/
def IpcMessage.addUint64 (m : IpcMessage) (fieldId value : Nat) : IpcMessage :=
  (m.addFieldHeader fieldId 2 8).appendBytes (leBytes 8 value)

/-- Embedding of `IpcMessage::addDouble`; the source copies the double's
8-byte IEEE-754 image opaquely with `memcpy`, so the embedding carries the
64-bit representation `bits`. -/
def IpcMessage.addDouble (m : IpcMessage) (fieldId bits : Nat) : IpcMessage :=
  (m.addFieldHeader fieldId 3 8).appendBytes (leBytes 8 bits)

/-- Embedding of `IpcMessage::addString`; `value.size()` is narrowed to
`uint32_t` in the stored `valueLen` (the `leBytes 4` serialization reduces
mod `2^32`) while all `value.size()` bytes are appended, as in the source. -/
def IpcMessage.addString (m : IpcMessage) (fieldId : Nat) (value : List Nat) : IpcMessage :=
  (m.addFieldHeader fieldId 4 value.length).appendBytes value

/-- Embedding of `IpcMessage::addBytes` (caller passes `len` equal to the
byte count of `data`, as every call site in the repository does). -/
def IpcMessage.addBytes (m : IpcMessage) (field_id : Nat) (data : List Nat) : IpcMessage :=
  (m.addFieldHeader field_id 5 data.length).appendBytes data

/-- The record walk shared by `IpcMessage::finalize` and
`IpcMessage::validateFields`: while at least `sizeof(FieldHeader) = 8`
bytes remain, read the record header, fail if its `valueLen` overruns the
buffer, otherwise skip the value and count the record; at loop exit the
cursor must sit exactly at the end.  Returns the record count on success. -/
def countFields (bs : List Nat) : Option Nat :=
  if h : 8 ≤ bs.length then
    let vlen := readLE ((bs.drop 4).take 4)
    if vlen ≤ bs.length - 8 then
      match countFields (bs.drop (8 + vlen)) with
      | some c => some (c + 1)
      | none => none
    else none
  else if bs.length = 0 then some 0 else none
termination_by bs.length
decreasing_by
  simp only [List.length_drop]
  omega

/-- Embedding of `IpcMessage::finalize` (messaging.h lines 141-159):
`none` models the two `std::runtime_error` throws; on success the
`uint16_t` field count and `uint32_t` payload length are written back. -/
def IpcMessage.finalize (m : IpcMessage) : Option IpcMessage :=
  match countFields m.fields with
  | some count =>
      some { m with header :=
        { m.header with fieldCount := count % U16, length := m.fields.length % U32 } }
  | none => none

/-- The 16 bytes `memcpy` copies for a `MsgHeader` value. -/
def encodeHeader (h : MsgHeader) : List Nat :=
  leBytes 2 h.MsgType ++ leBytes 2 h.fieldCount ++ leBytes 4 h.length ++ leBytes 8 h.seqNo

/-- Embedding of `IpcMessage::encode`: header image followed by the field
bytes. -/
def IpcMessage.encode (m : IpcMessage) : List Nat :=
  encodeHeader m.header ++ m.fields

/-- Reading a `MsgHeader` back from (at least) 16 bytes, as `decode`'s
header `memcpy` does; only ever applied to buffers of length ≥ 16. -/
def decodeHeader : List Nat → MsgHeader
  | b0 :: b1 :: b2 :: b3 :: b4 :: b5 :: b6 :: b7 ::
    b8 :: b9 :: b10 :: b11 :: b12 :: b13 :: b14 :: b15 :: _ =>
      { MsgType := readLE [b0, b1], fieldCount := readLE [b2, b3],
        length := readLE [b4, b5, b6, b7],
        seqNo := readLE [b8, b9, b10, b11, b12, b13, b14, b15] }
  | _ => { MsgType := 0, fieldCount := 0, length := 0, seqNo := 0 }

/-- Embedding of `IpcMessage::validateFields`. -/
def IpcMessage.validateFields (m : IpcMessage) : Bool :=
  (countFields m.fields).isSome

/-- Embedding of `static bool IpcMessage::decode(data, size, out)`
(messaging.h lines 175-191); `none` models a `false` return.  The input
list is the `size`-byte buffer the caller hands in. -/
def IpcMessage.decode (buf : List Nat) : Option IpcMessage :=
  if buf.length < 16 then none
  else
    let hdr := decodeHeader (buf.take 16)
    if buf.length < 16 + hdr.length then none
    else
      let out : IpcMessage := { header := hdr, fields := (buf.drop 16).take hdr.length }
      if out.validateFields then some out else none

/-- Value of the stored `int16_t fieldId` after integer promotion, as used
by the `fh->fieldId == field_id` comparison in `findFieldRaw`. -/
def int16Promote (stored : Nat) : Int :=
  if stored < 32768 then (stored : Int) else (stored : Int) - 65536

/-- Embedding of `IpcMessage::findFieldRaw`: linear scan over the records,
returning the value bytes of the first record whose (promoted) field id
and type byte match. -/
def findFieldRaw (bs : List Nat) (field_id expectedType : Nat) : Option (List Nat) :=
  if _h : 8 ≤ bs.length then
    let storedId := readLE (bs.take 2)
    let storedType := bs.getD 2 0
    let vlen := readLE ((bs.drop 4).take 4)
    if vlen ≤ bs.length - 8 then
      if int16Promote storedId = ((field_id % U16 : Nat) : Int) ∧
          storedType = expectedType % 256 then
        some ((bs.drop 8).take vlen)
      else
        findFieldRaw (bs.drop (8 + vlen)) field_id expectedType
    else none
  else none
termination_by bs.length
decreasing_by
  simp only [List.length_drop]
  omega

/-- Embedding of `IpcMessage::getUint64` (via `findField`, which requires
an exact 8-byte value). -/
def IpcMessage.getUint64 (m : IpcMessage) (field_id : Nat) : Option Nat :=
  match findFieldRaw m.fields field_id 2 with
  | some val => if val.length = 8 then some (readLE val) else none
  | none => none

/-- Embedding of `IpcMessage::getString` (returns the raw value bytes). -/
def IpcMessage.getString (m : IpcMessage) (field_id : Nat) : Option (List Nat) :=
  findFieldRaw m.fields field_id 4

/-! ### Building a message by a sequence of typed appends -/

/-- One typed append call of the builder API. -/
inductive AddOp where
  | int64 (fieldId : Nat) (value : Int)
  | uint64 (fieldId value : Nat)
  | double (fieldId bits : Nat)
  | string (fieldId : Nat) (value : List Nat)
  | bytes (fieldId : Nat) (value : List Nat)

/-- Apply one typed append. -/
def applyAddOp (m : IpcMessage) : AddOp → IpcMessage
  | .int64 fid v => m.addInt64 fid v
  | .uint64 fid v => m.addUint64 fid v
  | .double fid b => m.addDouble fid b
  | .string fid s => m.addString fid s
  | .bytes fid b => m.addBytes fid b

/-- A message built by `setMsgType` followed by a finite sequence of typed
appends on a fresh `IpcMessage`. -/
def buildMessage (t : Nat) (ops : List AddOp) : IpcMessage :=
  ops.foldl applyAddOp (IpcMessage.empty.setMsgType t)

/-- One complete on-wire field record: header bytes then value bytes. -/
def mkRecord (fid typ : Nat) (val : List Nat) : List Nat :=
  fieldHeaderBytes fid typ val.length ++ val

/-- The record an append contributes to the field vector. -/
def AddOp.record : AddOp → List Nat
  | .int64 fid v => mkRecord fid 1 (leBytes 8 (v % (18446744073709551616 : Int)).toNat)
  | .uint64 fid v => mkRecord fid 2 (leBytes 8 v)
  | .double fid b => mkRecord fid 3 (leBytes 8 b)
  | .string fid s => mkRecord fid 4 s
  | .bytes fid b => mkRecord fid 5 b

/-- Length of an append's value bytes. -/
def AddOp.valueLen : AddOp → Nat
  | .int64 _ _ => 8
  | .uint64 _ _ => 8
  | .double _ _ => 8
  | .string _ s => s.length
  | .bytes _ b => b.length

/-- Concatenation of the records of a sequence of appends. -/
def recordsOf : List AddOp → List Nat
  | [] => []
  | op :: ops => op.record ++ recordsOf ops

theorem drop_whole_append {α : Type} (xs ys : List α) :
    (xs ++ ys).drop xs.length = ys := by
  induction xs with
  | nil => simp
  | cons x xs ih => simp [ih]

theorem record_eq_mkRecord (op : AddOp) :
    ∃ fid typ val, op.record = mkRecord fid typ val ∧ val.length = op.valueLen := by
  cases op with
  | int64 fid v => exact ⟨fid, 1, _, rfl, length_leBytes 8 _⟩
  | uint64 fid v => exact ⟨fid, 2, _, rfl, length_leBytes 8 _⟩
  | double fid b => exact ⟨fid, 3, _, rfl, length_leBytes 8 _⟩
  | string fid s => exact ⟨fid, 4, s, rfl, rfl⟩
  | bytes fid b => exact ⟨fid, 5, b, rfl, rfl⟩

theorem length_fieldHeaderBytes (fid typ vlen : Nat) :
    (fieldHeaderBytes fid typ vlen).length = 8 := by
  simp [fieldHeaderBytes, length_leBytes]

theorem length_mkRecord (fid typ : Nat) (val : List Nat) :
    (mkRecord fid typ val).length = 8 + val.length := by
  simp [mkRecord, length_fieldHeaderBytes]

theorem applyAddOp_eq (m : IpcMessage) (op : AddOp) :
    applyAddOp m op = { header := m.header, fields := m.fields ++ op.record } := by
  cases op <;>
    simp [applyAddOp, IpcMessage.addInt64, IpcMessage.addUint64, IpcMessage.addDouble,
      IpcMessage.addString, IpcMessage.addBytes, IpcMessage.addFieldHeader,
      IpcMessage.appendBytes, AddOp.record, mkRecord, length_leBytes, List.append_assoc]

theorem buildMessage_eq (t : Nat) (ops : List AddOp) :
    buildMessage t ops =
      { header := { MsgType := t % U16, fieldCount := 0, length := 0, seqNo := 0 },
        fields := recordsOf ops } := by
  have h : ∀ (ops : List AddOp) (m : IpcMessage),
      ops.foldl applyAddOp m = { header := m.header, fields := m.fields ++ recordsOf ops } := by
    intro ops
    induction ops with
    | nil => intro m; simp [recordsOf]
    | cons op ops ih =>
        intro m
        simp only [List.foldl_cons, recordsOf]
        rw [applyAddOp_eq, ih]
        simp [List.append_assoc]
  rw [buildMessage, h]
  simp [IpcMessage.empty, IpcMessage.setMsgType]

theorem countFields_mkRecord (fid typ : Nat) (val rest : List Nat)
    (hv : val.length < U32) :
    countFields (mkRecord fid typ val ++ rest) =
      match countFields rest with
      | some c => some (c + 1)
      | none => none := by
  have hlenAll : (mkRecord fid typ val ++ rest).length = 8 + val.length + rest.length := by
    rw [List.length_append, length_mkRecord]
  have h8 : 8 ≤ (mkRecord fid typ val ++ rest).length := by omega
  have hv4 : (((mkRecord fid typ val ++ rest).drop 4).take 4) = leBytes 4 val.length := by
    simp [mkRecord, fieldHeaderBytes, leBytes]
  have hvread : readLE (((mkRecord fid typ val ++ rest).drop 4).take 4) = val.length := by
    rw [hv4, readLE_leBytes]
    exact Nat.mod_eq_of_lt (by unfold U32 at hv; norm_num; omega)
  have hdrop : (mkRecord fid typ val ++ rest).drop (8 + val.length) = rest := by
    have hl : 8 + val.length = (mkRecord fid typ val).length := (length_mkRecord fid typ val).symm
    rw [hl, drop_whole_append]
  rw [countFields, dif_pos h8]
  simp only [hvread]
  rw [if_pos (by omega), hdrop]

theorem countFields_recordsOf (ops : List AddOp)
    (h : ∀ op ∈ ops, op.valueLen < U32) :
    countFields (recordsOf ops) = some ops.length := by
  induction ops with
  | nil =>
      rw [recordsOf, countFields]
      simp
  | cons op ops ih =>
      obtain ⟨fid, typ, val, hrec, hlen⟩ := record_eq_mkRecord op
      rw [recordsOf, hrec,
        countFields_mkRecord fid typ val (recordsOf ops)
          (by rw [hlen]; exact h op (List.mem_cons_self op ops)),
        ih (fun o ho => h o (List.mem_cons_of_mem op ho))]
      simp

theorem valueLen_le_recordsOf (ops : List AddOp) (op : AddOp) (hmem : op ∈ ops) :
    op.valueLen + 8 ≤ (recordsOf ops).length := by
  induction ops with
  | nil => simp at hmem
  | cons a l ih =>
      obtain ⟨fid, typ, val, hrec, hlen⟩ := record_eq_mkRecord a
      have hl : (recordsOf (a :: l)).length = (8 + val.length) + (recordsOf l).length := by
        rw [recordsOf, List.length_append, hrec, length_mkRecord]
      rcases List.mem_cons.mp hmem with rfl | hmem'
      · rw [hl, ← hlen]
        omega
      · have := ih hmem'
        omega

theorem length_encodeHeader (h : MsgHeader) : (encodeHeader h).length = 16 := by
  simp [encodeHeader, length_leBytes]

theorem decodeHeader_encodeHeader (h : MsgHeader)
    (h1 : h.MsgType < U16) (h2 : h.fieldCount < U16)
    (h3 : h.length < U32) (h4 : h.seqNo < U64) :
    decodeHeader (encodeHeader h) = h := by
  cases h with
  | mk a b c d =>
      simp only [U16, U32, U64] at h1 h2 h3 h4
      have he : encodeHeader (MsgHeader.mk a b c d) =
          [a % 256, a / 256 % 256, b % 256, b / 256 % 256,
           c % 256, c / 256 % 256, c / 256 / 256 % 256, c / 256 / 256 / 256 % 256,
           d % 256, d / 256 % 256, d / 256 / 256 % 256, d / 256 / 256 / 256 % 256,
           d / 256 / 256 / 256 / 256 % 256, d / 256 / 256 / 256 / 256 / 256 % 256,
           d / 256 / 256 / 256 / 256 / 256 / 256 % 256,
           d / 256 / 256 / 256 / 256 / 256 / 256 / 256 % 256] := rfl
      rw [he]
      dsimp only [decodeHeader, readLE, List.foldr]
      simp only [MsgHeader.mk.injEq]
      refine ⟨?_, ?_, ?_, ?_⟩ <;> omega

/-- Decoding an encoded message recovers it exactly, provided the header
fields are in range, the recorded length matches the payload, and the
payload walks cleanly. -/
theorem decode_encode_of_valid (m : IpcMessage) (c : Nat)
    (hc : countFields m.fields = some c)
    (hb1 : m.header.MsgType < U16) (hb2 : m.header.fieldCount < U16)
    (hb3 : m.header.length = m.fields.length) (hb4 : m.fields.length < U32)
    (hb5 : m.header.seqNo < U64) :
    IpcMessage.decode m.encode = some m := by
  have hel : (IpcMessage.encode m).length = 16 + m.fields.length := by
    rw [IpcMessage.encode, List.length_append, length_encodeHeader]
  have h16 : (16 : Nat) = (encodeHeader m.header).length := (length_encodeHeader _).symm
  have htake : (IpcMessage.encode m).take 16 = encodeHeader m.header := by
    rw [IpcMessage.encode, h16, take_whole_append]
  have hdrop : (IpcMessage.encode m).drop 16 = m.fields := by
    rw [IpcMessage.encode, h16, drop_whole_append]
  have hhdr : decodeHeader ((IpcMessage.encode m).take 16) = m.header := by
    rw [htake]
    exact decodeHeader_encodeHeader m.header hb1 hb2 (by rw [hb3]; exact hb4) hb5
  simp only [IpcMessage.decode, hhdr, hdrop, hb3, List.take_length,
    IpcMessage.validateFields, hc]
  rw [if_neg (by omega), if_neg (by omega)]
  simp

/-- C3 (amended): every `IpcMessage` built by a `setMsgType` and a finite
sequence of `addInt64` / `addUint64` / `addDouble` / `addString` /
`addBytes` calls whose total encoded payload is fewer than 2^32 bytes
finalizes successfully, and encoding it and decoding the resulting buffer
succeeds with a message whose header fields (MsgType, fieldCount, length,
seqNo) and ordered `FieldHeader + value` record bytes are identical to the
finalized original's.  (The bound is forced by the `uint32_t` narrowing of
lengths; see `roundtrip_breaks_at_u32_length_truncation`.) -/
theorem ipc_encode_decode_roundtrip (t : Nat) (ops : List AddOp)
    (hlen : (buildMessage t ops).fields.length < U32) :
    ∃ m', (buildMessage t ops).finalize = some m' ∧
      IpcMessage.decode m'.encode = some m' := by
  have hlenF : (recordsOf ops).length < U32 := by
    rw [buildMessage_eq] at hlen
    exact hlen
  have hv : ∀ op ∈ ops, op.valueLen < U32 := by
    intro op hop
    have h1 := valueLen_le_recordsOf ops op hop
    omega
  have hcount : countFields (recordsOf ops) = some ops.length :=
    countFields_recordsOf ops hv
  refine ⟨{ header := { MsgType := t % U16, fieldCount := ops.length % U16,
                        length := (recordsOf ops).length % U32, seqNo := 0 },
            fields := recordsOf ops }, ?_, ?_⟩
  · rw [buildMessage_eq]
    simp only [IpcMessage.finalize, hcount]
  · have hmod : (recordsOf ops).length % U32 = (recordsOf ops).length :=
      Nat.mod_eq_of_lt hlenF
    refine decode_encode_of_valid _ ops.length hcount ?_ ?_ ?_ ?_ ?_
    · exact Nat.mod_lt t (by unfold U16; omega)
    · exact Nat.mod_lt ops.length (by unfold U16; omega)
    · exact hmod
    · exact hlenF
    · show (0 : Nat) < U64
      unfold U64
      omega

/-- Witness: the C3 round-trip theorem applied to a concrete NEW_ORDER-like
build with a string field and a uint64 field. -/
theorem ipc_encode_decode_roundtrip_witness :
    ∃ m', (buildMessage 1 [AddOp.string 1 [65, 65, 80, 76], AddOp.uint64 4 100]).finalize =
        some m' ∧ IpcMessage.decode m'.encode = some m' :=
  ipc_encode_decode_roundtrip 1 [AddOp.string 1 [65, 65, 80, 76], AddOp.uint64 4 100]
    (by simp [buildMessage, applyAddOp, IpcMessage.empty, IpcMessage.setMsgType,
          IpcMessage.addString, IpcMessage.addUint64, IpcMessage.addFieldHeader,
          IpcMessage.appendBytes, fieldHeaderBytes, leBytes, U32])

theorem countFields_nil : countFields [] = some 0 := by
  rw [countFields]
  simp

theorem countFields_replicate_zero (k : Nat) :
    countFields (List.replicate (8 * k) 0) = some k := by
  induction k with
  | zero =>
      simp only [Nat.mul_zero, List.replicate_zero]
      exact countFields_nil
  | succ k ih =>
      have h8 : mkRecord 0 0 ([] : List Nat) = List.replicate 8 0 := rfl
      have hsplit : List.replicate (8 * (k + 1)) (0 : Nat) =
          mkRecord 0 0 [] ++ List.replicate (8 * k) 0 := by
        rw [h8, ← List.replicate_add]
        congr 1
        ring
      rw [hsplit, countFields_mkRecord 0 0 [] _ (by rw [List.length_nil]; unfold U32; omega), ih]

/-- C3 as frozen fails at a 2^32-byte `addString`: the `uint32_t` narrowing
records `valueLen = 0` while all 2^32 value bytes are appended.  `finalize`
still succeeds (the walk re-interprets the zero bytes as 2^29 empty
records, and the `uint16_t` count wraps to 1), but the encoded buffer
decodes successfully to a DIFFERENT message, whose payload is only the
8-byte record header. -/
theorem finalize_eval (hh : MsgHeader) (F : List Nat) (c : Nat)
    (hc : countFields F = some c) :
    IpcMessage.finalize { header := hh, fields := F } =
      some { header := { MsgType := hh.MsgType, fieldCount := c % U16,
                         length := F.length % U32, seqNo := hh.seqNo },
             fields := F } := by
  rw [IpcMessage.finalize]
  simp only []
  rw [hc]

/-- Decoding an encoded message whose header length undercounts the payload
succeeds and silently truncates the payload to the recorded length. -/
theorem decode_eval_truncating (hh : MsgHeader) (F G : List Nat) (c : Nat)
    (hb1 : hh.MsgType < U16) (hb2 : hh.fieldCount < U16)
    (hb3 : hh.length < U32) (hb4 : hh.seqNo < U64)
    (hL : hh.length ≤ F.length) (hG : F.take hh.length = G)
    (hc : countFields G = some c) :
    IpcMessage.decode (IpcMessage.encode { header := hh, fields := F }) =
      some { header := hh, fields := G } := by
  have hel : (IpcMessage.encode { header := hh, fields := F }).length = 16 + F.length := by
    rw [IpcMessage.encode, List.length_append, length_encodeHeader]
  have h16 : (16 : Nat) = (encodeHeader hh).length := (length_encodeHeader _).symm
  have htake : (IpcMessage.encode { header := hh, fields := F }).take 16 =
      encodeHeader hh := by
    rw [IpcMessage.encode, h16, take_whole_append]
  have hdrop : (IpcMessage.encode { header := hh, fields := F }).drop 16 = F := by
    rw [IpcMessage.encode, h16, drop_whole_append]
  have hhdr : decodeHeader ((IpcMessage.encode { header := hh, fields := F }).take 16) =
      hh := by
    rw [htake]
    exact decodeHeader_encodeHeader hh hb1 hb2 hb3 hb4
  simp only [IpcMessage.decode, hhdr, hdrop, hG, IpcMessage.validateFields, hc]
  rw [if_neg (by omega), if_neg (by omega)]
  simp

/-- C3 as frozen fails at a 2^32-byte `addString`: the `uint32_t` narrowing
records `valueLen = 0` while all 2^32 value bytes are appended.  `finalize`
still succeeds (the walk re-interprets the zero bytes as 2^29 empty
records, and the `uint16_t` count wraps to 1), but the encoded buffer
decodes successfully to a DIFFERENT message, whose payload is only the
8-byte record header. -/
theorem roundtrip_breaks_at_u32_length_truncation :
    (buildMessage 0 [AddOp.string 1 (List.replicate 4294967296 0)]).finalize =
      some { header := { MsgType := 0, fieldCount := 1, length := 8, seqNo := 0 },
             fields := mkRecord 1 4 [] ++ List.replicate 4294967296 0 } ∧
    IpcMessage.decode
        (IpcMessage.encode
          { header := { MsgType := 0, fieldCount := 1, length := 8, seqNo := 0 },
            fields := mkRecord 1 4 [] ++ List.replicate 4294967296 0 }) =
      some { header := { MsgType := 0, fieldCount := 1, length := 8, seqNo := 0 },
             fields := mkRecord 1 4 [] } ∧
    IpcMessage.decode
        (IpcMessage.encode
          { header := { MsgType := 0, fieldCount := 1, length := 8, seqNo := 0 },
            fields := mkRecord 1 4 [] ++ List.replicate 4294967296 0 }) ≠
      some { header := { MsgType := 0, fieldCount := 1, length := 8, seqNo := 0 },
             fields := mkRecord 1 4 [] ++ List.replicate 4294967296 0 } := by
  have hkey : mkRecord 1 4 (List.replicate 4294967296 (0 : Nat)) =
      mkRecord 1 4 [] ++ List.replicate 4294967296 0 := by
    rw [mkRecord, List.length_replicate,
      show fieldHeaderBytes 1 4 4294967296 = mkRecord 1 4 [] from rfl]
  have hcnt : countFields (mkRecord 1 4 [] ++ List.replicate 4294967296 0) =
      some 536870913 := by
    rw [countFields_mkRecord 1 4 [] _ (by rw [List.length_nil]; unfold U32; omega),
      show (4294967296 : Nat) = 8 * 536870912 from rfl,
      countFields_replicate_zero]
  have hflen : (mkRecord 1 4 [] ++ List.replicate 4294967296 (0 : Nat)).length =
      4294967304 := by
    rw [List.length_append, length_mkRecord, List.length_nil, List.length_replicate]
  have hfin : (buildMessage 0 [AddOp.string 1 (List.replicate 4294967296 0)]).finalize =
      some { header := { MsgType := 0, fieldCount := 1, length := 8, seqNo := 0 },
             fields := mkRecord 1 4 [] ++ List.replicate 4294967296 0 } := by
    have hrec : recordsOf [AddOp.string 1 (List.replicate 4294967296 0)] =
        mkRecord 1 4 [] ++ List.replicate 4294967296 0 := by
      rw [recordsOf, recordsOf, AddOp.record, hkey, List.append_nil]
    have hb : buildMessage 0 [AddOp.string 1 (List.replicate 4294967296 0)] =
        { header := { MsgType := 0, fieldCount := 0, length := 0, seqNo := 0 },
          fields := mkRecord 1 4 [] ++ List.replicate 4294967296 0 } := by
      rw [buildMessage_eq, hrec, show (0 : Nat) % U16 = 0 from rfl]
    rw [hb,
      finalize_eval { MsgType := 0, fieldCount := 0, length := 0, seqNo := 0 }
        (mkRecord 1 4 [] ++ List.replicate 4294967296 0) 536870913 hcnt,
      hflen, show (536870913 : Nat) % U16 = 1 from rfl,
      show (4294967304 : Nat) % U32 = 8 from rfl]
  have htake8 : ((mkRecord 1 4 [] ++ List.replicate 4294967296 (0 : Nat))).take
      ({ MsgType := 0, fieldCount := 1, length := 8, seqNo := 0 } : MsgHeader).length =
      mkRecord 1 4 [] := by
    rw [show ({ MsgType := 0, fieldCount := 1, length := 8, seqNo := 0 } :
        MsgHeader).length = (mkRecord 1 4 ([] : List Nat)).length from rfl,
      take_whole_append]
  have hval : countFields (mkRecord 1 4 ([] : List Nat)) = some 1 := by
    have h9 := countFields_mkRecord 1 4 ([] : List Nat) []
      (by rw [List.length_nil]; unfold U32; omega)
    rw [countFields_nil] at h9
    exact h9
  have hdec : IpcMessage.decode
      (IpcMessage.encode
        { header := { MsgType := 0, fieldCount := 1, length := 8, seqNo := 0 },
          fields := mkRecord 1 4 [] ++ List.replicate 4294967296 0 }) =
      some { header := { MsgType := 0, fieldCount := 1, length := 8, seqNo := 0 },
             fields := mkRecord 1 4 [] } :=
    decode_eval_truncating { MsgType := 0, fieldCount := 1, length := 8, seqNo := 0 }
      (mkRecord 1 4 [] ++ List.replicate 4294967296 0) (mkRecord 1 4 []) 1
      (by decide) (by decide) (by decide) (by decide)
      (by rw [hflen]; decide) htake8 hval
  refine ⟨hfin, hdec, ?_⟩
  intro hcontra
  rw [hdec] at hcontra
  have hf := congrArg IpcMessage.fields (Option.some.inj hcontra)
  have hl := congrArg List.length hf
  rw [hflen, length_mkRecord, List.length_nil] at hl
  omega

/-- C4: `IpcMessage::decode` returns `false` on every buffer shorter than
`sizeof(MsgHeader) = 16`, and on every buffer of at least 16 bytes that is
shorter than `16 +` the length value recorded in its header; in both cases
it returns normally (the embedding is total) through the error branch. -/
theorem decode_rejects_short_buffers (buf : List Nat) :
    (buf.length < 16 → IpcMessage.decode buf = none) ∧
    (16 ≤ buf.length → buf.length < 16 + (decodeHeader (buf.take 16)).length →
      IpcMessage.decode buf = none) := by
  constructor
  · intro h
    simp only [IpcMessage.decode]
    rw [if_pos h]
  · intro h1 h2
    simp only [IpcMessage.decode]
    rw [if_neg (by omega), if_pos h2]

/-- Witness: C4 applied to a 3-byte buffer and to a 16-byte buffer whose
header records a 5-byte payload that is not present. -/
theorem decode_rejects_short_buffers_witness :
    IpcMessage.decode [1, 0, 2, 0] = none ∧
    IpcMessage.decode [1, 0, 0, 0, 5, 0, 0, 0, 0, 0, 0, 0, 0, 0, 0, 0] = none := by
  constructor
  · exact (decode_rejects_short_buffers [1, 0, 2, 0]).1 (by simp)
  · exact (decode_rejects_short_buffers
      [1, 0, 0, 0, 5, 0, 0, 0, 0, 0, 0, 0, 0, 0, 0, 0]).2 (by simp)
      (by simp [decodeHeader, readLE])

/-- C5 (divergence witness): because the `#pragma pack(push, 1)` in
messaging.h is popped before the struct declarations, a serialized
`FieldHeader` occupies 8 bytes (with a padding byte at offset 3), so the
record of a 4-byte string value occupies `8 + 4 = 12` payload bytes, not
the `7 + 4 = 11` the claim states; the 16-byte `MsgHeader` part of the
claim does hold. -/
theorem field_record_is_eight_plus_n_bytes :
    (IpcMessage.addString IpcMessage.empty 1 [65, 65, 80, 76]).fields.length = 12 ∧
    (IpcMessage.addString IpcMessage.empty 1 [65, 65, 80, 76]).fields.length ≠ 7 + 4 ∧
    (fieldHeaderBytes 1 4 4).length = 8 ∧
    (encodeHeader IpcMessage.empty.header).length = 16 := by
  refine ⟨?_, ?_, ?_, ?_⟩ <;>
    simp [IpcMessage.addString, IpcMessage.addFieldHeader, IpcMessage.appendBytes,
      IpcMessage.empty, fieldHeaderBytes, encodeHeader, leBytes]

/-- C10: `decode` does not cross-check the header's field count against the
payload: a buffer whose header records `fieldCount = 5` over a payload that
walks as exactly one record decodes successfully (`some`), the decoded
message keeps the mismatched `fieldCount = 5`, and the getters operate on
the one actual record. -/
theorem decode_ignores_field_count_mismatch :
    IpcMessage.decode
        (encodeHeader { MsgType := 1, fieldCount := 5, length := 16, seqNo := 0 } ++
          mkRecord 4 2 (leBytes 8 100)) =
      some { header := { MsgType := 1, fieldCount := 5, length := 16, seqNo := 0 },
             fields := mkRecord 4 2 (leBytes 8 100) } ∧
    countFields (mkRecord 4 2 (leBytes 8 100)) = some 1 ∧
    IpcMessage.getUint64
        { header := { MsgType := 1, fieldCount := 5, length := 16, seqNo := 0 },
          fields := mkRecord 4 2 (leBytes 8 100) } 4 = some 100 := by
  refine ⟨?_, ?_, ?_⟩
  · simp [IpcMessage.decode, decodeHeader, IpcMessage.validateFields, countFields,
      mkRecord, fieldHeaderBytes, leBytes, readLE, encodeHeader]
  · simp [countFields, mkRecord, fieldHeaderBytes, leBytes, readLE]
  · simp [IpcMessage.getUint64, findFieldRaw, mkRecord, fieldHeaderBytes, leBytes,
      readLE, int16Promote, U16]

/-! ## Bounded blocking queue (`MutexBlockingQueue.h`)

Every operation runs under `m_Mutex`, so calls are serialized and each is a
transition on the queue state.  Condition-variable waiting is modelled
explicitly: when an operation's wake-up predicate is false at entry (and no
other thread intervenes) the call is `blocked`; when the predicate holds
the operation completes immediately.  After `close()` both predicates are
permanently true, so no modelled call blocks. -/

/-- State of a `MutexBlockingQueue<T>`: FIFO contents (front of the queue
first), fixed capacity, and `m_Closed`.  In the source `m_Closed` is
declared without an initializer and the constructor's init-list only sets
`m_Capacity`, so the flag's post-construction value is whatever the
underlying memory held. -/
structure MutexBlockingQueue (α : Type) where
  queue : List α
  capacity : Nat
  closed : Bool
deriving DecidableEq

/-- Embedding of the constructor: `none` models the `ENG_THROW` on zero
capacity; `residualClosed` is the indeterminate value the uninitialized
`m_Closed` member starts with. -/
def MutexBlockingQueue.mkQueue (α : Type) (capacity : Nat) (residualClosed : Bool) :
    Option (MutexBlockingQueue α) :=
  if capacity = 0 then none
  else some { queue := [], capacity := capacity, closed := residualClosed }

/-- Result of one `push` call: appended, threw "Push on closed." (state
unchanged), or still waiting on `m_NotFullCv`. -/
inductive PushResult (α : Type) where
  | pushed (q : MutexBlockingQueue α)
  | closedError (q : MutexBlockingQueue α)
  | blocked
deriving DecidableEq

/-- Embedding of `MutexBlockingQueue::push` (both overloads): wait until
`size < capacity or closed`; once awake, throw if closed, else append and
notify. -/
def MutexBlockingQueue.push {α : Type} (q : MutexBlockingQueue α) (value : α) : PushResult α :=
  if q.queue.length < q.capacity ∨ q.closed then
    if q.closed then .closedError q
    else .pushed { q with queue := q.queue ++ [value] }
  else .blocked

/-- Result of one `pop(T&)` call: popped the front element (returned
`true`), returned `false` (closed and drained), or still waiting on
`m_NotEmptyCv`. -/
inductive PopResult (α : Type) where
  | popped (value : α) (q : MutexBlockingQueue α)
  | drained (q : MutexBlockingQueue α)
  | blocked
deriving DecidableEq

/-- Embedding of `bool MutexBlockingQueue::pop(T& out)`: wait until
`not empty or closed`; once awake, return `false` if the queue is empty
(hence closed), else move out the front element. -/
def MutexBlockingQueue.pop {α : Type} (q : MutexBlockingQueue α) : PopResult α :=
  if !q.queue.isEmpty || q.closed then
    match q.queue with
    | [] => .drained q
    | x :: rest => .popped x { q with queue := rest }
  else .blocked

/-- Result of the value-returning `T pop()`. -/
inductive PopValueResult (α : Type) where
  | value (v : α) (q : MutexBlockingQueue α)
  | closedEmptyError (q : MutexBlockingQueue α)
  | blocked
deriving DecidableEq

/-- Embedding of `T MutexBlockingQueue::pop()`: calls `pop(value)` and
throws "pop on closed and empty" when it returns `false`. -/
def MutexBlockingQueue.popValue {α : Type} (q : MutexBlockingQueue α) : PopValueResult α :=
  match q.pop with
  | .popped v q' => .value v q'
  | .drained q' => .closedEmptyError q'
  | .blocked => .blocked

/-- Embedding of `MutexBlockingQueue::close`: set the flag and notify all
waiters. -/
def MutexBlockingQueue.close {α : Type} (q : MutexBlockingQueue α) : MutexBlockingQueue α :=
  { q with closed := true }

/-- Embedding of `MutexBlockingQueue::isClosed`. -/
def MutexBlockingQueue.isClosed {α : Type} (q : MutexBlockingQueue α) : Bool :=
  q.closed

/-- C6: on any closed queue state (any state reachable after `close()` —
closing sets the flag and no operation ever clears it): every push throws
the push-on-closed error leaving the state unchanged and does not block;
every pop either removes and returns the oldest remaining element
(returning `true`, the successor state still closed) or, on the empty
queue, returns `false`, with the value-returning `pop()` raising
pop-on-closed-empty there; a further `close()` leaves the state unchanged
(idempotence); and no push or pop blocks. -/
theorem closed_queue_semantics (α : Type) (q : MutexBlockingQueue α)
    (hclosed : q.isClosed = true) :
    (∀ v, q.push v = .closedError q) ∧
    (q.queue = [] → q.pop = .drained q ∧ q.popValue = .closedEmptyError q) ∧
    (∀ x rest, q.queue = x :: rest →
      q.pop = .popped x { q with queue := rest } ∧
      ({ q with queue := rest } : MutexBlockingQueue α).isClosed = true) ∧
    q.close = q ∧
    (∀ v, q.push v ≠ .blocked) ∧
    q.pop ≠ .blocked := by
  rw [MutexBlockingQueue.isClosed] at hclosed
  refine ⟨?_, ?_, ?_, ?_, ?_, ?_⟩
  · intro v
    simp [MutexBlockingQueue.push, hclosed]
  · intro hq
    constructor
    · simp [MutexBlockingQueue.pop, hclosed, hq]
    · simp [MutexBlockingQueue.popValue, MutexBlockingQueue.pop, hclosed, hq]
  · intro x rest hq
    constructor
    · simp [MutexBlockingQueue.pop, hclosed, hq]
    · simp [MutexBlockingQueue.isClosed, hclosed]
  · cases q with
    | mk qu cap cl =>
        simp only [MutexBlockingQueue.close]
        simp at hclosed
        rw [hclosed]
  · intro v
    simp [MutexBlockingQueue.push, hclosed]
  · simp only [MutexBlockingQueue.pop, hclosed, Bool.or_true, if_true]
    cases hq : q.queue <;> simp

/-- Witness: C6 applied to a concrete closed queue holding one element. -/
theorem closed_queue_semantics_witness :
    (∀ v, MutexBlockingQueue.push { queue := [5], capacity := 3, closed := true } v =
      .closedError { queue := [5], capacity := 3, closed := true }) ∧
    (({ queue := [5], capacity := 3, closed := true } : MutexBlockingQueue Nat).queue = [] →
      MutexBlockingQueue.pop { queue := [5], capacity := 3, closed := true } =
        .drained { queue := [5], capacity := 3, closed := true } ∧
      MutexBlockingQueue.popValue { queue := [5], capacity := 3, closed := true } =
        .closedEmptyError { queue := [5], capacity := 3, closed := true }) ∧
    (∀ x rest,
      ({ queue := [5], capacity := 3, closed := true } : MutexBlockingQueue Nat).queue =
          x :: rest →
      MutexBlockingQueue.pop { queue := [5], capacity := 3, closed := true } =
        .popped x { queue := rest, capacity := 3, closed := true } ∧
      ({ queue := rest, capacity := 3, closed := true } : MutexBlockingQueue Nat).isClosed =
        true) ∧
    MutexBlockingQueue.close { queue := [5], capacity := 3, closed := true } =
      ({ queue := [5], capacity := 3, closed := true } : MutexBlockingQueue Nat) ∧
    (∀ v, MutexBlockingQueue.push { queue := [5], capacity := 3, closed := true } v ≠
      .blocked) ∧
    MutexBlockingQueue.pop ({ queue := [5], capacity := 3, closed := true } :
      MutexBlockingQueue Nat) ≠ .blocked :=
  closed_queue_semantics Nat { queue := [5], capacity := 3, closed := true } (by decide)

/-- C9 (divergence witness): the constructor never initializes `m_Closed`
(neither a member initializer nor the constructor init-list sets it), so a
fresh `MutexBlockingQueue(4)` built over memory whose residual flag byte is
nonzero reports `isClosed() = true` and rejects a push with the
push-on-closed error, contradicting the claim that the flag is definitely
`false` after construction. -/
theorem fresh_queue_closed_flag_indeterminate :
    MutexBlockingQueue.mkQueue Nat 4 true =
      some { queue := [], capacity := 4, closed := true } ∧
    ({ queue := [], capacity := 4, closed := true } : MutexBlockingQueue Nat).isClosed =
      true ∧
    MutexBlockingQueue.push
        ({ queue := [], capacity := 4, closed := true } : MutexBlockingQueue Nat) 0 =
      .closedError { queue := [], capacity := 4, closed := true } := by
  refine ⟨?_, ?_, ?_⟩ <;> decide

/-! ## Worker run loop (`Worker.cpp`) -/

/-- A queued task as the run loop inspects it: its id and whether its
cancel token is already set.  The task's function acts on state outside
the `Worker` object; no `Worker` field is touched by executing it. -/
structure WTask where
  id : Nat
  cancelled : Bool
deriving DecidableEq

/-- The `Worker` fields the run loop reads or writes. -/
structure WorkerState where
  mQueue : List WTask
  mPendingTasks : Finset Nat
  mRunningTasks : Finset Nat
deriving DecidableEq

/-- One iteration of `Worker::run` (Worker.cpp lines 36-76) with the queue
non-empty and stop not yet forcing an exit: pop the front task, insert its
id into `mRunningTasks`, then execute it inside try/catch unless its token
is cancelled.  Neither the execution step, the catch handler, nor any
later statement erases the id: the only occurrence of `mRunningTasks` in
the repository outside its declaration is the `insert` at Worker.cpp:59.
Returns the dequeued task's id together with the state at the end of the
iteration (`none` when the queue is empty). -/
def runIteration (w : WorkerState) : Option (Nat × WorkerState) :=
  match w.mQueue with
  | [] => none
  | t :: rest =>
      some (t.id,
        { w with mQueue := rest, mRunningTasks := insert t.id w.mRunningTasks })

/-- C7 (divergence witness): after the worker dequeues and finishes the
task with id 7, the id is still a member of `mRunningTasks` — the run loop
never removes it. -/
theorem task_id_stays_in_running_set :
    runIteration
        { mQueue := [{ id := 7, cancelled := false }], mPendingTasks := ∅,
          mRunningTasks := ∅ } =
      some (7, { mQueue := [], mPendingTasks := ∅, mRunningTasks := {7} }) ∧
    7 ∈ ({ mQueue := [], mPendingTasks := ∅,
           mRunningTasks := {7} } : WorkerState).mRunningTasks := by
  refine ⟨?_, ?_⟩ <;> decide

/-! ## FIX parsing and dispatch (`FIX.h`, `FixMessageDispatcher.h`) -/

/-- The FIX field separator SOH (0x01), `gFixDelimiter` in the source. -/
def gFixDelimiter : Char := Char.ofNat 1

/-- Parsed FIX frame (`Fix::FixMsg`).  `price` and `quantity` carry the
raw accepted token of tags 44 / 38: the numeric values produced by
`std::stod` / `std::stoi` are never re-inspected on the code paths these
theorems touch, and `none` models the indeterminate value of the
never-assigned (uninitialized) member. -/
structure FixMsg where
  msgType : List Char
  symbol : List Char
  side : List Char
  price : Option (List Char)
  quantity : Option (List Char)
  isValid : Bool
deriving DecidableEq

/-- The `FixMsg msg` local at the top of `parseFix`: the `Core::String`
members default to empty, `isValid` is set to `false`, the numeric members
are uninitialized. -/
def FixMsg.initial : FixMsg :=
  { msgType := [], symbol := [], side := [], price := none, quantity := none,
    isValid := false }

/-- Auxiliary for `getlineSegments`: accumulates the current segment (in
reverse) while scanning for the delimiter; at a delimiter the segment is
emitted and scanning restarts, except that nothing follows a delimiter
that ends the input (matching `std::getline`'s failure on an exhausted
stream). -/
def splitSoh (cur : List Char) : List Char → List (List Char)
  | [] => [cur.reverse]
  | c :: cs =>
      if c = gFixDelimiter then
        cur.reverse :: (match cs with | [] => [] | _ :: _ => splitSoh [] cs)
      else splitSoh (c :: cur) cs

/-- The segments the `while (std::getline(ss, segment, gFixDelimiter))`
loop of `parseFix` iterates over. -/
def getlineSegments : List Char → List (List Char)
  | [] => []
  | cs => splitSoh [] cs

/-- Acceptance model of `std::stod` restricted to the plain decimal forms
arising here: optional leading whitespace, an optional sign, then at least
one digit before or after an optional decimal point.  (The C library also
accepts hex / inf / nan / exponent forms; none arise in these theorems.)
`std::stod` throws `std::invalid_argument` exactly when it accepts no
initial portion of the string. -/
def stodAccepts (s : List Char) : Bool :=
  let s1 := s.dropWhile (fun c => c = ' ' ∨ c = '\t' ∨ c = '\n')
  let s2 := match s1 with
    | c :: rest => if c = '+' ∨ c = '-' then rest else s1
    | [] => []
  let intDigits := s2.takeWhile Char.isDigit
  let afterInt := s2.dropWhile Char.isDigit
  let fracDigits : List Char := match afterInt with
    | '.' :: rest => rest.takeWhile Char.isDigit
    | _ => []
  !intDigits.isEmpty || !fracDigits.isEmpty

/-- Acceptance model of `std::stoi` (base 10): optional leading
whitespace, an optional sign, then at least one digit. -/
def stoiAccepts (s : List Char) : Bool :=
  let s1 := s.dropWhile (fun c => c = ' ' ∨ c = '\t' ∨ c = '\n')
  let s2 := match s1 with
    | c :: rest => if c = '+' ∨ c = '-' then rest else s1
    | [] => []
  !(s2.takeWhile Char.isDigit).isEmpty

/-- One iteration of the tag dispatch in `parseFix`: find `=` (skip the
segment if absent), split into tag and value, and handle the five known
tags; tags 44 and 38 call `std::stod` / `std::stoi`, which THROW
(`Except.error`) on an unconvertible value — `parseFix` has no handler. -/
def parseSegment (m : FixMsg) (seg : List Char) : Except String FixMsg :=
  if (seg.dropWhile (fun c => c ≠ '=')).isEmpty then .ok m
  else
    let tag := seg.takeWhile (fun c => c ≠ '=')
    let value := (seg.dropWhile (fun c => c ≠ '=')).drop 1
    if tag = ['3', '5'] then .ok { m with msgType := value }
    else if tag = ['5', '5'] then .ok { m with symbol := value }
    else if tag = ['5', '4'] then .ok { m with side := value }
    else if tag = ['4', '4'] then
      if stodAccepts value then .ok { m with price := some value }
      else .error "std::invalid_argument (stod)"
    else if tag = ['3', '8'] then
      if stoiAccepts value then .ok { m with quantity := some value }
      else .error "std::invalid_argument (stoi)"
    else .ok m

/-- Embedding of `Fix::parseFix` (FIX.h lines 38-68): split on SOH,
process each `tag=value` segment, then mark the message valid iff tag 35
produced a non-empty message type.  `Except.error` models an exception
propagating out of `parseFix` (there is no try/catch inside it). -/
def parseFix (raw : List Char) : Except String FixMsg := do
  let m ← (getlineSegments raw).foldlM parseSegment FixMsg.initial
  pure (if !m.msgType.isEmpty then { m with isValid := true } else m)

/-- Observable outcome of `FixMessageDispatcher::dispatch` on one packet. -/
inductive DispatchResult where
  | droppedInvalid
  | newOrder (fix : FixMsg)
  | logon
  | unhandledType (t : List Char)
  | uncaughtException (e : String)
deriving DecidableEq

/-- Embedding of `FixMessageDispatcher::dispatch` (FixMessageDispatcher.h
lines 42-61): parse, drop-with-warn when invalid, dispatch on the message
type.  `dispatch` installs no exception handler, so an exception thrown by
`parseFix` escapes (`uncaughtException`), terminating the dispatcher's
`run` loop. -/
def dispatch (raw : List Char) : DispatchResult :=
  match parseFix raw with
  | .error e => .uncaughtException e
  | .ok fix =>
      if fix.isValid = false then .droppedInvalid
      else if fix.msgType = ['D'] then .newOrder fix
      else if fix.msgType = ['A'] then .logon
      else .unhandledType fix.msgType

/-- C8 (divergence witness): on the frame `"44=abc"` — a malformed FIX
frame with an unparsable tag-44 value — `parseFix` raises
(`std::invalid_argument` out of the unguarded `std::stod`) instead of
returning `isValid = false`, and the exception escapes `dispatch`, so the
dispatcher does not go on to process subsequent packets.  The
missing-tag-35 half of the claim does hold: a frame with no tag 35 is
dropped as invalid. -/
theorem dispatch_throws_on_unparsable_numeric_tag :
    parseFix ['4', '4', '=', 'a', 'b', 'c'] =
      .error "std::invalid_argument (stod)" ∧
    dispatch ['4', '4', '=', 'a', 'b', 'c'] =
      .uncaughtException "std::invalid_argument (stod)" ∧
    dispatch ['N', 'O', 'T', '_', 'F', 'I', 'X'] = .droppedInvalid := by
  refine ⟨?_, ?_, ?_⟩ <;> rfl

end StockExchange
